import Mathlib

/-!
Formal model of the herrkunft provenance-tracking configuration system.

The repository ships a layered YAML configuration library: every scalar
carries a provenance chain recording which file, line, column, category and
optional subcategory produced it; a loader merges layered sources while
accumulating attribution history; a dumper re-serializes the merged tree,
optionally annotated with provenance comments, optionally stripped clean.

The library package itself (provenance.core, provenance.types,
provenance.yaml) is not part of the snapshot — only a demonstration script
that calls it — so the definitions below are modelled from the design
specification, faithful to its words, and the theorems settle the spec's
claims against this model.  The external YAML tokenizer/emitter is out of
scope in the spec; it is represented here by position-annotated parse trees
on the input side and by comment-annotated document trees on the output side.
-/

namespace Herrkunft

/-- Modelled from the spec: one attribution record, an immutable value of
source path, line (1-based), column (1-based), category and optional
subcategory.  The concrete class lives in the missing module
provenance.core.provenance. -/
structure ProvenanceStep where
  source_path : String
  line : Nat
  column : Nat
  category : String
  subcategory : Option String
deriving Repr, DecidableEq

/-- Modelled from the spec: an ordered chain of attribution steps, oldest
first.  The concrete class lives in the missing module
provenance.core.provenance. -/
structure Provenance where
  steps : List ProvenanceStep
deriving Repr, DecidableEq

/-- Modelled from the spec: merge concatenates two chains, self's steps
followed by the other's, producing a new chain. -/
def Provenance.merge (a b : Provenance) : Provenance :=
  Provenance.mk (a.steps ++ b.steps)

/-- Modelled from the spec: the most recent attribution of a chain, used for
display; absent on an empty chain. -/
def Provenance.latest (p : Provenance) : Option ProvenanceStep :=
  p.steps.getLast?

/-- A field value in a loosely-shaped construction mapping: either a string
or a number, mirroring the two field types of an attribution record. -/
inductive FieldValue where
  | str (s : String)
  | nat (n : Nat)
deriving Repr, DecidableEq

/-- The field names an attribution record recognizes. -/
def allowedFieldNames : List String :=
  ["source_path", "line", "column", "category", "subcategory"]

/-- The field names an attribution record requires. -/
def requiredFieldNames : List String :=
  ["source_path", "line", "column", "category"]

/-- First value bound to a key in a field mapping, if any. -/
def lookupField (fields : List (String × FieldValue)) (k : String) : Option FieldValue :=
  match fields with
  | [] => none
  | (k1, v) :: rest => if k1 = k then some v else lookupField rest k

/-- Modelled from the spec: construction of an attribution record from a
flexible set of named fields, where subcategory is optional and all other
fields are required; unknown or missing required fields are rejected rather
than silently accepted.  The concrete constructor lives in the missing
module provenance.core.provenance. -/
def ProvenanceStep.ofFields (fields : List (String × FieldValue)) : Option ProvenanceStep :=
  if fields.all (fun kv => allowedFieldNames.contains kv.1) then
    match lookupField fields "source_path", lookupField fields "line",
          lookupField fields "column", lookupField fields "category" with
    | some (.str sp), some (.nat l), some (.nat c), some (.str cat) =>
        match lookupField fields "subcategory" with
        | none => some (ProvenanceStep.mk sp l c cat none)
        | some (.str sub) => some (ProvenanceStep.mk sp l c cat (some sub))
        | some (.nat _) => none
    | _, _, _, _ => none
  else none

/-- Modelled from the spec: the primitive kinds of the value wrapper's
tagged union — String, Integer, Float, Boolean.  Float payloads are carried
as their literal text, since no arithmetic on them is specified. -/
inductive Scalar where
  | str (s : String)
  | int (n : Int)
  | float (lit : String)
  | bool (b : Bool)
deriving Repr, DecidableEq

mutual
/-- A plain (unwrapped) configuration tree: native scalars, sequences and
mappings with no attached provenance. -/
inductive Plain where
  | scalar (s : Scalar)
  | seq (items : PlainSeq)
  | map (entries : PlainMap)
deriving Repr, DecidableEq
/-- Ordered items of a plain sequence. -/
inductive PlainSeq where
  | nil
  | cons (v : Plain) (rest : PlainSeq)
deriving Repr, DecidableEq
/-- Ordered entries of a plain mapping, insertion order preserved. -/
inductive PlainMap where
  | nil
  | cons (k : String) (v : Plain) (rest : PlainMap)
deriving Repr, DecidableEq
end

mutual
/-- Modelled from the spec: a configuration tree node — scalar, sequence or
mapping — holding a plain payload and an optionally attached provenance
chain (none models a plain, unwrapped node; the concrete wrapper classes
live in the missing module provenance.types). -/
inductive Value where
  | scalar (s : Scalar) (prov : Option Provenance)
  | seq (items : ValueSeq) (prov : Option Provenance)
  | map (entries : ValueMap) (prov : Option Provenance)
deriving Repr, DecidableEq
/-- Ordered items of a sequence node. -/
inductive ValueSeq where
  | nil
  | cons (v : Value) (rest : ValueSeq)
deriving Repr, DecidableEq
/-- Ordered entries of a mapping node, insertion order preserved. -/
inductive ValueMap where
  | nil
  | cons (k : String) (v : Value) (rest : ValueMap)
deriving Repr, DecidableEq
end

/-- Modelled from the spec: the provenance accessor — attached provenance if
the node is wrapped, absence otherwise. -/
def provenance_of : Value → Option Provenance
  | .scalar _ p => p
  | .seq _ p => p
  | .map _ p => p

mutual
/-- Modelled from the spec: unwrap recursively strips wrapper metadata,
returning a tree of native containers and scalars with no attached
provenance. -/
def unwrap : Value → Plain
  | .scalar s _ => .scalar s
  | .seq xs _ => .seq (unwrapSeq xs)
  | .map es _ => .map (unwrapMap es)
/-- Unwrap every item of a sequence. -/
def unwrapSeq : ValueSeq → PlainSeq
  | .nil => .nil
  | .cons v rest => .cons (unwrap v) (unwrapSeq rest)
/-- Unwrap every entry of a mapping. -/
def unwrapMap : ValueMap → PlainMap
  | .nil => .nil
  | .cons k v rest => .cons k (unwrap v) (unwrapMap rest)
end

mutual
/-- Modelled from the spec: wrap attaches a provenance chain to a node and
recursively to every descendant, sharing the same chain, except that a
descendant already carrying its own provenance keeps its existing
attribution. -/
def wrap : Value → Provenance → Value
  | .scalar s q, p => .scalar s (some (q.getD p))
  | .seq xs q, p => .seq (wrapSeq xs p) (some (q.getD p))
  | .map es q, p => .map (wrapMap es p) (some (q.getD p))
/-- Wrap every item of a sequence. -/
def wrapSeq : ValueSeq → Provenance → ValueSeq
  | .nil, _ => .nil
  | .cons v rest, p => .cons (wrap v p) (wrapSeq rest p)
/-- Wrap every entry of a mapping. -/
def wrapMap : ValueMap → Provenance → ValueMap
  | .nil, _ => .nil
  | .cons k v rest, p => .cons k (wrap v p) (wrapMap rest p)
end

mutual
/-- Inject a plain tree into the value model with no provenance anywhere. -/
def Plain.toValue : Plain → Value
  | .scalar s => .scalar s none
  | .seq xs => .seq (PlainSeq.toValueSeq xs) none
  | .map es => .map (PlainMap.toValueMap es) none
/-- Inject every item of a plain sequence. -/
def PlainSeq.toValueSeq : PlainSeq → ValueSeq
  | .nil => .nil
  | .cons v rest => .cons (Plain.toValue v) (PlainSeq.toValueSeq rest)
/-- Inject every entry of a plain mapping. -/
def PlainMap.toValueMap : PlainMap → ValueMap
  | .nil => .nil
  | .cons k v rest => .cons k (Plain.toValue v) (PlainMap.toValueMap rest)
end

/-- Rank of a scalar kind, used to order scalars of different kinds. -/
def Scalar.kindRank : Scalar → Nat
  | .str _ => 0
  | .int _ => 1
  | .float _ => 2
  | .bool _ => 3

/-- Modelled from the spec: comparison of the plain payloads of two scalars,
by native value within a kind and by kind rank across kinds. -/
def Scalar.cmp : Scalar → Scalar → Ordering
  | .str x, .str y => compare x y
  | .int x, .int y => compare x y
  | .float x, .float y => compare x y
  | .bool x, .bool y => compare x y
  | a, b => compare a.kindRank b.kindRank

/-- Modelled from the spec: a hash of the plain payload of a scalar, a pure
function of the native value. -/
def Scalar.hashVal : Scalar → Nat
  | .str s => 4 * s.data.foldl (fun a c => a * 1000003 + c.toNat) 7
  | .int n => 4 * n.natAbs + (if n < 0 then 1 else 2)
  | .float lit => 4 * lit.data.foldl (fun a c => a * 1000003 + c.toNat) 7 + 3
  | .bool b => if b then 5 else 6

/-- Modelled from the spec: the equality operation of wrapped values —
equality by content, comparing the underlying plain trees and never the
attached provenance. -/
def Value.eqOp (a b : Value) : Bool :=
  unwrap a = unwrap b

/-- Modelled from the spec: the ordering operation of wrapped scalars,
delegating to the plain payloads; containers carry no ordering. -/
def Value.cmpOp : Value → Value → Option Ordering
  | .scalar a _, .scalar b _ => some (Scalar.cmp a b)
  | _, _ => none

/-- Modelled from the spec: the hashing operation of wrapped scalars,
delegating to the plain payload; containers are unhashable. -/
def Value.hashOp : Value → Option Nat
  | .scalar s _ => some (Scalar.hashVal s)
  | _ => none

/-- Provenance of an override: the superseded node's chain merged with the
overriding node's chain, whichever of the two is present. -/
def mergedProv : Option Provenance → Option Provenance → Option Provenance
  | some o, some n => some (o.merge n)
  | none, n => n
  | some o, none => some o

/-- First value bound to a key in a mapping node's entries, if any. -/
def lookupVM : ValueMap → String → Option Value
  | .nil, _ => none
  | .cons k v rest, key => if k = key then some v else lookupVM rest key

/-- Concatenation of two entry lists, order preserved. -/
def ValueMap.append : ValueMap → ValueMap → ValueMap
  | .nil, ys => ys
  | .cons k v rest, ys => .cons k v (ValueMap.append rest ys)

/-- Entries of the overriding mapping whose keys are absent from the base
mapping, in the overriding mapping's order. -/
def newOnly (oes : ValueMap) : ValueMap → ValueMap
  | .nil => .nil
  | .cons k v rest =>
      if (lookupVM oes k).isSome then newOnly oes rest
      else .cons k v (newOnly oes rest)

mutual
/-- Modelled from the spec: deep merge of an overriding node into a base
node.  A scalar overriding a scalar takes the new value with the old chain
merged with the new attribution; a sequence overriding a sequence is
wholesale replacement; a mapping overriding a mapping recurses per key,
keeping keys unique to either side as-is; on a kind mismatch the overriding
node wins outright. -/
def mergeValue : Value → Value → Value
  | .scalar _ oprov, .scalar ns nprov => .scalar ns (mergedProv oprov nprov)
  | .seq _ _, .seq nitems nprov => .seq nitems nprov
  | .map oes oprov, .map nes nprov =>
      .map (ValueMap.append (mergeCommon oes nes) (newOnly oes nes)) (mergedProv oprov nprov)
  | _, nv => nv
/-- Walk the base mapping's entries in order: a key also present in the
overriding mapping recurses, a key unique to the base is kept as-is. -/
def mergeCommon : ValueMap → ValueMap → ValueMap
  | .nil, _ => .nil
  | .cons k ov rest, nes =>
      match lookupVM nes k with
      | some nv => .cons k (mergeValue ov nv) (mergeCommon rest nes)
      | none => .cons k ov (mergeCommon rest nes)
end

/-- The merged entry list of a mapping override: base keys in base order
(recursed where shared), then keys unique to the overriding side. -/
def mergedEntries (oes nes : ValueMap) : ValueMap :=
  ValueMap.append (mergeCommon oes nes) (newOnly oes nes)

mutual
/-- Modelled from the spec: a parse tree from the external YAML collaborator,
each node annotated with its reported line and column. -/
inductive PosTree where
  | scalar (s : Scalar) (line column : Nat)
  | seq (items : PosSeq) (line column : Nat)
  | map (entries : PosMap) (line column : Nat)
deriving Repr, DecidableEq
/-- Ordered items of a parsed sequence. -/
inductive PosSeq where
  | nil
  | cons (v : PosTree) (rest : PosSeq)
deriving Repr, DecidableEq
/-- Ordered entries of a parsed mapping. -/
inductive PosMap where
  | nil
  | cons (k : String) (v : PosTree) (rest : PosMap)
deriving Repr, DecidableEq
end

mutual
/-- The plain tree a parse tree denotes, positions forgotten. -/
def PosTree.erase : PosTree → Plain
  | .scalar s _ _ => .scalar s
  | .seq xs _ _ => .seq (PosSeq.erase xs)
  | .map es _ _ => .map (PosMap.erase es)
/-- Erase positions of every item of a parsed sequence. -/
def PosSeq.erase : PosSeq → PlainSeq
  | .nil => .nil
  | .cons v rest => .cons (PosTree.erase v) (PosSeq.erase rest)
/-- Erase positions of every entry of a parsed mapping. -/
def PosMap.erase : PosMap → PlainMap
  | .nil => .nil
  | .cons k v rest => .cons k (PosTree.erase v) (PosMap.erase rest)
end

mutual
/-- Modelled from the spec: wrapping one parsed source — every node gets a
fresh single-step chain built from the source path, the node's reported
position, and the load's category and optional subcategory. -/
def loadTree (path category : String) (subcategory : Option String) : PosTree → Value
  | .scalar s l c =>
      .scalar s (some (Provenance.mk [ProvenanceStep.mk path l c category subcategory]))
  | .seq xs l c =>
      .seq (loadSeq path category subcategory xs)
        (some (Provenance.mk [ProvenanceStep.mk path l c category subcategory]))
  | .map es l c =>
      .map (loadMap path category subcategory es)
        (some (Provenance.mk [ProvenanceStep.mk path l c category subcategory]))
/-- Wrap every item of a parsed sequence. -/
def loadSeq (path category : String) (subcategory : Option String) : PosSeq → ValueSeq
  | .nil => .nil
  | .cons v rest =>
      .cons (loadTree path category subcategory v) (loadSeq path category subcategory rest)
/-- Wrap every entry of a parsed mapping. -/
def loadMap (path category : String) (subcategory : Option String) : PosMap → ValueMap
  | .nil => .nil
  | .cons k v rest =>
      .cons k (loadTree path category subcategory v) (loadMap path category subcategory rest)
end

/-- Join a path prefix and a component with a dot, dropping an empty prefix. -/
def dotted (pre k : String) : String :=
  if pre = "" then k else pre ++ "." ++ k

/-- One index entry when the node carries provenance, none otherwise. -/
def indexEntry (pre : String) : Option Provenance → List (String × Provenance)
  | some p => [(pre, p)]
  | none => []

mutual
/-- Modelled from the spec: the flattened diagnostic index, mapping the
dotted structural path of every provenance-carrying node to its chain. -/
def buildIndex (pre : String) : Value → List (String × Provenance)
  | .scalar _ p => indexEntry pre p
  | .seq xs p => indexEntry pre p ++ buildIndexSeq pre 0 xs
  | .map es p => indexEntry pre p ++ buildIndexMap pre es
/-- Index the items of a sequence node under their positions. -/
def buildIndexSeq (pre : String) (i : Nat) : ValueSeq → List (String × Provenance)
  | .nil => []
  | .cons v rest => buildIndex (dotted pre (toString i)) v ++ buildIndexSeq pre (i + 1) rest
/-- Index the entries of a mapping node under their keys. -/
def buildIndexMap (pre : String) : ValueMap → List (String × Provenance)
  | .nil => []
  | .cons k v rest => buildIndex (dotted pre k) v ++ buildIndexMap pre rest
end

/-- Modelled from the spec: the load failure raised when a source is missing,
unreadable or fails to parse. -/
inductive LoadError where
  | unreadable (path : String)
deriving Repr, DecidableEq

/-- Modelled from the spec and the demo script's calls: the loader is
constructed with an optional category and optional subcategory; both default
to absent, mirroring that ProvenanceLoader() is a valid construction. -/
structure ProvenanceLoader where
  category : Option String := none
  subcategory : Option String := none
deriving Repr, DecidableEq

/-- Category recorded in attribution steps when the loader was constructed
without one. -/
def defaultCategory : String := "unknown"

/-- Modelled from the spec: loading one source — the external parser's
result is none when the file is missing, unreadable or unparsable, in which
case a LoadError surfaces; otherwise the wrapped tree and the flattened
provenance index are returned. -/
def ProvenanceLoader.load (L : ProvenanceLoader) (path : String)
    (parsed : Option PosTree) : Except LoadError (Value × List (String × Provenance)) :=
  match parsed with
  | none => .error (.unreadable path)
  | some pt =>
      let t := loadTree path (L.category.getD defaultCategory) L.subcategory pt
      .ok (t, buildIndex "" t)

/-- Modelled from the spec: layered load of an ordered list of sources,
priority increasing left to right.  Each source is wrapped and deep-merged
into the accumulator; any unreadable source aborts the whole call. -/
def loadLayered (cat : String) (sub : Option String) :
    Option Value → List (String × Option PosTree) → Except LoadError (Option Value)
  | acc, [] => .ok acc
  | _, (path, none) :: _ => .error (.unreadable path)
  | acc, (path, some pt) :: rest =>
      let t := loadTree path cat sub pt
      loadLayered cat sub
        (some (match acc with
               | none => t
               | some a => mergeValue a t)) rest

mutual
/-- Modelled from the spec: the document handed to the external YAML
emitter — the plain tree to render, with an optional comment attached to
each scalar leaf. -/
inductive DumpNode where
  | scalar (s : Scalar) (comment : Option String)
  | seq (items : DumpSeq)
  | map (entries : DumpMap)
deriving Repr, DecidableEq
/-- Ordered items of an emitted sequence. -/
inductive DumpSeq where
  | nil
  | cons (v : DumpNode) (rest : DumpSeq)
deriving Repr, DecidableEq
/-- Ordered entries of an emitted mapping, insertion order preserved. -/
inductive DumpMap where
  | nil
  | cons (k : String) (v : DumpNode) (rest : DumpMap)
deriving Repr, DecidableEq
end

/-- Modelled from the spec: a dumper is constructed with a default for
whether provenance comments are emitted. -/
structure ProvenanceDumper where
  include_provenance_comments : Bool
deriving Repr, DecidableEq

/-- Modelled from the spec: the text of a provenance comment rendered from
one attribution step. -/
def renderComment (st : ProvenanceStep) : String :=
  "# from " ++ st.source_path ++ ":" ++ toString st.line ++ " " ++ st.category ++
    (match st.subcategory with
     | some sub => "/" ++ sub
     | none => "")

/-- Modelled from the spec: the comment attached to a scalar leaf — none in
clean mode, the rendering of the latest attribution when comments are on and
the leaf is wrapped, none otherwise. -/
def scalarComment (ic clean : Bool) (prov : Option Provenance) : Option String :=
  if clean then none
  else if ic then prov.bind (fun p => p.latest.map renderComment)
  else none

mutual
/-- Modelled from the spec: the dumper's depth-first walk, preserving
mapping insertion order and sequence order exactly as stored, attaching a
comment to each scalar leaf as the mode dictates. -/
def dumpWalk (ic clean : Bool) : Value → DumpNode
  | .scalar s p => .scalar s (scalarComment ic clean p)
  | .seq xs _ => .seq (dumpWalkSeq ic clean xs)
  | .map es _ => .map (dumpWalkMap ic clean es)
/-- Walk every item of a sequence node. -/
def dumpWalkSeq (ic clean : Bool) : ValueSeq → DumpSeq
  | .nil => .nil
  | .cons v rest => .cons (dumpWalk ic clean v) (dumpWalkSeq ic clean rest)
/-- Walk every entry of a mapping node. -/
def dumpWalkMap (ic clean : Bool) : ValueMap → DumpMap
  | .nil => .nil
  | .cons k v rest => .cons k (dumpWalk ic clean v) (dumpWalkMap ic clean rest)
end

/-- Modelled from the spec: dumps renders a tree to a document, honouring the
constructor default unless the per-call clean flag overrides it. -/
def ProvenanceDumper.dumps (d : ProvenanceDumper) (t : Value) (clean : Bool) : DumpNode :=
  dumpWalk d.include_provenance_comments clean t

mutual
/-- Every comment present anywhere in an emitted document. -/
def DumpNode.comments : DumpNode → List String
  | .scalar _ c => c.toList
  | .seq xs => DumpSeq.comments xs
  | .map es => DumpMap.comments es
/-- Comments of every item of an emitted sequence. -/
def DumpSeq.comments : DumpSeq → List String
  | .nil => []
  | .cons v rest => DumpNode.comments v ++ DumpSeq.comments rest
/-- Comments of every entry of an emitted mapping. -/
def DumpMap.comments : DumpMap → List String
  | .nil => []
  | .cons _ v rest => DumpNode.comments v ++ DumpMap.comments rest
end

mutual
/-- The plain tree an emitted document denotes, comments forgotten: this is
what the external parser reads back, comments being invisible to YAML. -/
def DumpNode.erase : DumpNode → Plain
  | .scalar s _ => .scalar s
  | .seq xs => .seq (DumpSeq.erase xs)
  | .map es => .map (DumpMap.erase es)
/-- Erase comments of every item of an emitted sequence. -/
def DumpSeq.erase : DumpSeq → PlainSeq
  | .nil => .nil
  | .cons v rest => .cons (DumpNode.erase v) (DumpSeq.erase rest)
/-- Erase comments of every entry of an emitted mapping. -/
def DumpMap.erase : DumpMap → PlainMap
  | .nil => .nil
  | .cons k v rest => .cons k (DumpNode.erase v) (DumpMap.erase rest)
end

mutual
/-- The comment-free document of a plain tree. -/
def Plain.toDump : Plain → DumpNode
  | .scalar s => .scalar s none
  | .seq xs => .seq (PlainSeq.toDumpSeq xs)
  | .map es => .map (PlainMap.toDumpMap es)
/-- Comment-free items of a plain sequence. -/
def PlainSeq.toDumpSeq : PlainSeq → DumpSeq
  | .nil => .nil
  | .cons v rest => .cons (Plain.toDump v) (PlainSeq.toDumpSeq rest)
/-- Comment-free entries of a plain mapping. -/
def PlainMap.toDumpMap : PlainMap → DumpMap
  | .nil => .nil
  | .cons k v rest => .cons k (Plain.toDump v) (PlainMap.toDumpMap rest)
end

mutual
/-- Every provenance chain attached anywhere in a tree. -/
def Value.allProvs : Value → List Provenance
  | .scalar _ p => p.toList
  | .seq xs p => p.toList ++ ValueSeq.allProvs xs
  | .map es p => p.toList ++ ValueMap.allProvs es
/-- Chains of every item of a sequence node. -/
def ValueSeq.allProvs : ValueSeq → List Provenance
  | .nil => []
  | .cons v rest => Value.allProvs v ++ ValueSeq.allProvs rest
/-- Chains of every entry of a mapping node. -/
def ValueMap.allProvs : ValueMap → List Provenance
  | .nil => []
  | .cons _ v rest => Value.allProvs v ++ ValueMap.allProvs rest
end

/-- Mapping entries of a node, when it is a mapping. -/
def Value.atKey : Value → String → Option Value
  | .map es _, k => lookupVM es k
  | _, _ => none

/-- Whether the first character list begins the second. -/
def startsWithC : List Char → List Char → Bool
  | [], _ => true
  | _ :: _, [] => false
  | a :: as, b :: bs => a == b && startsWithC as bs

/-- Whether the first character list occurs inside the second. -/
def containsC (needle : List Char) : List Char → Bool
  | [] => startsWithC needle []
  | b :: rest => startsWithC needle (b :: rest) || containsC needle rest

/-- Whether the text contains the given fragment. -/
def strContainsSub (hay needle : String) : Bool :=
  containsC needle.data hay.data

/-- Round-trip example: a one-key tree whose scalar carries an original chain. -/
def exC1tree : Value :=
  .map (.cons "k"
          (.scalar (.int 1) (some (Provenance.mk [ProvenanceStep.mk "orig.yaml" 3 5 "defaults" none])))
          .nil)
    none

/-- Round-trip example: the parse tree the external parser reports for the
cleanly dumped file. -/
def exC1pt : PosTree :=
  .map (.cons "k" (.scalar (.int 1) 1 4) .nil) 1 1

/-- Layered-load example: parse tree of the base source, a at line 1 and b at
line 2. -/
def exC2base : PosTree :=
  .map (.cons "a" (.scalar (.int 1) 1 4)
         (.cons "b" (.scalar (.int 2) 2 4) .nil)) 1 1

/-- Layered-load example: parse tree of the overriding source, b at line 1
and c at line 2. -/
def exC2over : PosTree :=
  .map (.cons "b" (.scalar (.int 3) 1 4)
         (.cons "c" (.scalar (.int 4) 2 4) .nil)) 1 1

/-- Layered-load example: the merged tree of the two sources. -/
def exC2merged : Value :=
  mergeValue (loadTree "base.yaml" "test" none exC2base)
    (loadTree "override.yaml" "test" none exC2over)

/-- Sequence-replacement example: parse tree of the base source, holding
list as 1, 2, 3. -/
def exC3base : PosTree :=
  .map (.cons "list"
         (.seq (.cons (.scalar (.int 1) 1 9)
                 (.cons (.scalar (.int 2) 1 12)
                   (.cons (.scalar (.int 3) 1 15) .nil))) 1 7)
         .nil) 1 1

/-- Sequence-replacement example: parse tree of the overriding source,
holding list as the single item 9. -/
def exC3over : PosTree :=
  .map (.cons "list" (.seq (.cons (.scalar (.int 9) 1 9) .nil) 1 7) .nil) 1 1

/-- Sequence-replacement example: the merged tree of the two sources. -/
def exC3merged : Value :=
  mergeValue (loadTree "base.yaml" "test" none exC3base)
    (loadTree "override.yaml" "test" none exC3over)

/-- Equality-contract example: a first provenance chain. -/
def exC5p1 : Provenance :=
  Provenance.mk [ProvenanceStep.mk "one.yaml" 1 1 "defaults" none]

/-- Equality-contract example: a second, different provenance chain. -/
def exC5p2 : Provenance :=
  Provenance.mk [ProvenanceStep.mk "two.yaml" 9 2 "machines" (some "m")]

/-- Comment-rendering example: the attribution step of the spec's example. -/
def exC9step : ProvenanceStep :=
  ProvenanceStep.mk "a.yaml" 10 1 "defaults" none

mutual
theorem unwrap_wrap : ∀ (w : Value) (p : Provenance), unwrap (wrap w p) = unwrap w
  | .scalar _ _, _ => rfl
  | .seq xs q, p => by
      show Plain.seq (unwrapSeq (wrapSeq xs p)) = Plain.seq (unwrapSeq xs)
      rw [unwrapSeq_wrapSeq xs p]
  | .map es q, p => by
      show Plain.map (unwrapMap (wrapMap es p)) = Plain.map (unwrapMap es)
      rw [unwrapMap_wrapMap es p]
theorem unwrapSeq_wrapSeq : ∀ (xs : ValueSeq) (p : Provenance),
    unwrapSeq (wrapSeq xs p) = unwrapSeq xs
  | .nil, _ => rfl
  | .cons v rest, p => by
      show PlainSeq.cons (unwrap (wrap v p)) (unwrapSeq (wrapSeq rest p))
        = PlainSeq.cons (unwrap v) (unwrapSeq rest)
      rw [unwrap_wrap v p, unwrapSeq_wrapSeq rest p]
theorem unwrapMap_wrapMap : ∀ (es : ValueMap) (p : Provenance),
    unwrapMap (wrapMap es p) = unwrapMap es
  | .nil, _ => rfl
  | .cons k v rest, p => by
      show PlainMap.cons k (unwrap (wrap v p)) (unwrapMap (wrapMap rest p))
        = PlainMap.cons k (unwrap v) (unwrapMap rest)
      rw [unwrap_wrap v p, unwrapMap_wrapMap rest p]
end

mutual
theorem unwrap_toValue : ∀ (v : Plain), unwrap v.toValue = v
  | .scalar _ => rfl
  | .seq xs => by
      show Plain.seq (unwrapSeq (PlainSeq.toValueSeq xs)) = Plain.seq xs
      rw [unwrapSeq_toValueSeq xs]
  | .map es => by
      show Plain.map (unwrapMap (PlainMap.toValueMap es)) = Plain.map es
      rw [unwrapMap_toValueMap es]
theorem unwrapSeq_toValueSeq : ∀ (xs : PlainSeq), unwrapSeq (PlainSeq.toValueSeq xs) = xs
  | .nil => rfl
  | .cons v rest => by
      show PlainSeq.cons (unwrap v.toValue) (unwrapSeq (PlainSeq.toValueSeq rest))
        = PlainSeq.cons v rest
      rw [unwrap_toValue v, unwrapSeq_toValueSeq rest]
theorem unwrapMap_toValueMap : ∀ (es : PlainMap), unwrapMap (PlainMap.toValueMap es) = es
  | .nil => rfl
  | .cons k v rest => by
      show PlainMap.cons k (unwrap v.toValue) (unwrapMap (PlainMap.toValueMap rest))
        = PlainMap.cons k v rest
      rw [unwrap_toValue v, unwrapMap_toValueMap rest]
end

mutual
theorem dumpWalk_clean : ∀ (ic : Bool) (t : Value),
    dumpWalk ic true t = Plain.toDump (unwrap t)
  | _, .scalar s p => by
      show DumpNode.scalar s (scalarComment _ true p) = DumpNode.scalar s none
      rw [scalarComment]
      simp
  | ic, .seq xs _ => by
      show DumpNode.seq (dumpWalkSeq ic true xs) = DumpNode.seq (PlainSeq.toDumpSeq (unwrapSeq xs))
      rw [dumpWalkSeq_clean ic xs]
  | ic, .map es _ => by
      show DumpNode.map (dumpWalkMap ic true es) = DumpNode.map (PlainMap.toDumpMap (unwrapMap es))
      rw [dumpWalkMap_clean ic es]
theorem dumpWalkSeq_clean : ∀ (ic : Bool) (xs : ValueSeq),
    dumpWalkSeq ic true xs = PlainSeq.toDumpSeq (unwrapSeq xs)
  | _, .nil => rfl
  | ic, .cons v rest => by
      show DumpSeq.cons (dumpWalk ic true v) (dumpWalkSeq ic true rest)
        = DumpSeq.cons (Plain.toDump (unwrap v)) (PlainSeq.toDumpSeq (unwrapSeq rest))
      rw [dumpWalk_clean ic v, dumpWalkSeq_clean ic rest]
theorem dumpWalkMap_clean : ∀ (ic : Bool) (es : ValueMap),
    dumpWalkMap ic true es = PlainMap.toDumpMap (unwrapMap es)
  | _, .nil => rfl
  | ic, .cons k v rest => by
      show DumpMap.cons k (dumpWalk ic true v) (dumpWalkMap ic true rest)
        = DumpMap.cons k (Plain.toDump (unwrap v)) (PlainMap.toDumpMap (unwrapMap rest))
      rw [dumpWalk_clean ic v, dumpWalkMap_clean ic rest]
end

mutual
theorem comments_toDump : ∀ (v : Plain), (Plain.toDump v).comments = []
  | .scalar _ => rfl
  | .seq xs => commentsSeq_toDump xs
  | .map es => commentsMap_toDump es
theorem commentsSeq_toDump : ∀ (xs : PlainSeq), DumpSeq.comments (PlainSeq.toDumpSeq xs) = []
  | .nil => rfl
  | .cons v rest => by
      show DumpNode.comments (Plain.toDump v) ++ DumpSeq.comments (PlainSeq.toDumpSeq rest) = []
      rw [comments_toDump v, commentsSeq_toDump rest]
      rfl
theorem commentsMap_toDump : ∀ (es : PlainMap), DumpMap.comments (PlainMap.toDumpMap es) = []
  | .nil => rfl
  | .cons _ v rest => by
      show DumpNode.comments (Plain.toDump v) ++ DumpMap.comments (PlainMap.toDumpMap rest) = []
      rw [comments_toDump v, commentsMap_toDump rest]
      rfl
end

mutual
theorem erase_toDump : ∀ (v : Plain), (Plain.toDump v).erase = v
  | .scalar _ => rfl
  | .seq xs => by
      show Plain.seq (DumpSeq.erase (PlainSeq.toDumpSeq xs)) = Plain.seq xs
      rw [eraseSeq_toDump xs]
  | .map es => by
      show Plain.map (DumpMap.erase (PlainMap.toDumpMap es)) = Plain.map es
      rw [eraseMap_toDump es]
theorem eraseSeq_toDump : ∀ (xs : PlainSeq), DumpSeq.erase (PlainSeq.toDumpSeq xs) = xs
  | .nil => rfl
  | .cons v rest => by
      show PlainSeq.cons (DumpNode.erase (Plain.toDump v)) (DumpSeq.erase (PlainSeq.toDumpSeq rest))
        = PlainSeq.cons v rest
      rw [erase_toDump v, eraseSeq_toDump rest]
theorem eraseMap_toDump : ∀ (es : PlainMap), DumpMap.erase (PlainMap.toDumpMap es) = es
  | .nil => rfl
  | .cons k v rest => by
      show PlainMap.cons k (DumpNode.erase (Plain.toDump v)) (DumpMap.erase (PlainMap.toDumpMap rest))
        = PlainMap.cons k v rest
      rw [erase_toDump v, eraseMap_toDump rest]
end

mutual
theorem unwrap_loadTree : ∀ (path cat : String) (sub : Option String) (pt : PosTree),
    unwrap (loadTree path cat sub pt) = pt.erase
  | _, _, _, .scalar _ _ _ => rfl
  | path, cat, sub, .seq xs _ _ => by
      show Plain.seq (unwrapSeq (loadSeq path cat sub xs)) = Plain.seq (PosSeq.erase xs)
      rw [unwrap_loadSeq path cat sub xs]
  | path, cat, sub, .map es _ _ => by
      show Plain.map (unwrapMap (loadMap path cat sub es)) = Plain.map (PosMap.erase es)
      rw [unwrap_loadMap path cat sub es]
theorem unwrap_loadSeq : ∀ (path cat : String) (sub : Option String) (xs : PosSeq),
    unwrapSeq (loadSeq path cat sub xs) = PosSeq.erase xs
  | _, _, _, .nil => rfl
  | path, cat, sub, .cons v rest => by
      show PlainSeq.cons (unwrap (loadTree path cat sub v)) (unwrapSeq (loadSeq path cat sub rest))
        = PlainSeq.cons (PosTree.erase v) (PosSeq.erase rest)
      rw [unwrap_loadTree path cat sub v, unwrap_loadSeq path cat sub rest]
theorem unwrap_loadMap : ∀ (path cat : String) (sub : Option String) (es : PosMap),
    unwrapMap (loadMap path cat sub es) = PosMap.erase es
  | _, _, _, .nil => rfl
  | path, cat, sub, .cons k v rest => by
      show PlainMap.cons k (unwrap (loadTree path cat sub v)) (unwrapMap (loadMap path cat sub rest))
        = PlainMap.cons k (PosTree.erase v) (PosMap.erase rest)
      rw [unwrap_loadTree path cat sub v, unwrap_loadMap path cat sub rest]
end

mutual
theorem allProvs_loadTree : ∀ (path cat : String) (sub : Option String) (pt : PosTree)
    (pv : Provenance), pv ∈ (loadTree path cat sub pt).allProvs →
    ∃ l c, pv = Provenance.mk [ProvenanceStep.mk path l c cat sub]
  | path, cat, sub, .scalar s l c, pv => by
      intro h
      simp [loadTree, Value.allProvs] at h
      exact ⟨l, c, h⟩
  | path, cat, sub, .seq xs l c, pv => by
      intro h
      simp [loadTree, Value.allProvs] at h
      rcases h with h | h
      · exact ⟨l, c, h⟩
      · exact allProvs_loadSeq path cat sub xs pv h
  | path, cat, sub, .map es l c, pv => by
      intro h
      simp [loadTree, Value.allProvs] at h
      rcases h with h | h
      · exact ⟨l, c, h⟩
      · exact allProvs_loadMap path cat sub es pv h
theorem allProvs_loadSeq : ∀ (path cat : String) (sub : Option String) (xs : PosSeq)
    (pv : Provenance), pv ∈ ValueSeq.allProvs (loadSeq path cat sub xs) →
    ∃ l c, pv = Provenance.mk [ProvenanceStep.mk path l c cat sub]
  | _, _, _, .nil, pv => by
      intro h
      simp [loadSeq, ValueSeq.allProvs] at h
  | path, cat, sub, .cons v rest, pv => by
      intro h
      simp [loadSeq, ValueSeq.allProvs] at h
      rcases h with h | h
      · exact allProvs_loadTree path cat sub v pv h
      · exact allProvs_loadSeq path cat sub rest pv h
theorem allProvs_loadMap : ∀ (path cat : String) (sub : Option String) (es : PosMap)
    (pv : Provenance), pv ∈ ValueMap.allProvs (loadMap path cat sub es) →
    ∃ l c, pv = Provenance.mk [ProvenanceStep.mk path l c cat sub]
  | _, _, _, .nil, pv => by
      intro h
      simp [loadMap, ValueMap.allProvs] at h
  | path, cat, sub, .cons k v rest, pv => by
      intro h
      simp [loadMap, ValueMap.allProvs] at h
      rcases h with h | h
      · exact allProvs_loadTree path cat sub v pv h
      · exact allProvs_loadMap path cat sub rest pv h
end

theorem lookupVM_append : ∀ (xs ys : ValueMap) (k : String),
    lookupVM (ValueMap.append xs ys) k =
      match lookupVM xs k with
      | some v => some v
      | none => lookupVM ys k
  | .nil, ys, k => rfl
  | .cons k1 v rest, ys, k => by
      by_cases h : k1 = k
      · simp [ValueMap.append, lookupVM, h]
      · simp [ValueMap.append, lookupVM, h, lookupVM_append rest ys k]

theorem lookupVM_mergeCommon : ∀ (oes nes : ValueMap) (k : String),
    lookupVM (mergeCommon oes nes) k =
      match lookupVM oes k, lookupVM nes k with
      | some ov, some nv => some (mergeValue ov nv)
      | some ov, none => some ov
      | none, _ => none
  | .nil, nes, k => by cases lookupVM nes k <;> rfl
  | .cons k1 ov rest, nes, k => by
      by_cases h2 : k1 = k
      · subst h2
        cases h1 : lookupVM nes k1 <;> simp [mergeCommon, lookupVM, h1]
      · cases h1 : lookupVM nes k1 <;>
          simp [mergeCommon, lookupVM, h1, h2, lookupVM_mergeCommon rest nes k]

theorem lookupVM_newOnly : ∀ (oes nes : ValueMap) (k : String),
    lookupVM (newOnly oes nes) k =
      match lookupVM oes k with
      | some _ => none
      | none => lookupVM nes k
  | oes, .nil, k => by cases lookupVM oes k <;> rfl
  | oes, .cons k1 v rest, k => by
      by_cases h2 : k1 = k
      · subst h2
        cases h1 : lookupVM oes k1 <;>
          simp [newOnly, lookupVM, h1, lookupVM_newOnly oes rest k1]
      · cases h1 : lookupVM oes k1 <;>
          cases h3 : lookupVM oes k <;>
          simp [newOnly, lookupVM, h1, h2, h3, lookupVM_newOnly oes rest k]

theorem lookupVM_mergedEntries (oes nes : ValueMap) (k : String) :
    lookupVM (mergedEntries oes nes) k =
      match lookupVM oes k, lookupVM nes k with
      | some ov, some nv => some (mergeValue ov nv)
      | some ov, none => some ov
      | none, n => n := by
  rw [mergedEntries, lookupVM_append, lookupVM_mergeCommon, lookupVM_newOnly]
  cases lookupVM oes k <;> cases lookupVM nes k <;> rfl

/-- C6: for every supported primitive or container value v and every
provenance p, unwrapping wrap of v yields v again; more generally unwrap
after wrap on any tree agrees with unwrap of the tree, stripping all wrapper
metadata. -/
theorem claim_C6_unwrap_wrap_id : ∀ (v : Plain) (p : Provenance) (w : Value),
    unwrap (wrap v.toValue p) = v ∧ unwrap (wrap w p) = unwrap w :=
  fun v p w => ⟨(unwrap_wrap v.toValue p).trans (unwrap_toValue v), unwrap_wrap w p⟩

/-- C7: merge concatenates the two chains in order, self's steps then the
other's, it is associative, and merging two singleton chains gives the
two-step chain in order. -/
theorem claim_C7_merge_concat_assoc : ∀ (a b c : Provenance) (s1 s2 : ProvenanceStep),
    (a.merge b).steps = a.steps ++ b.steps ∧
    (a.merge b).merge c = a.merge (b.merge c) ∧
    (Provenance.mk [s1]).merge (Provenance.mk [s2]) = Provenance.mk [s1, s2] :=
  fun a b c s1 s2 => ⟨rfl, by simp [Provenance.merge], rfl⟩

/-- C5: equality, ordering and hashing of wrapped scalars depend only on the
underlying plain value and never on the attached provenance: for any two
distinct chains, wrapping the same scalar gives equal, equal-hashing values,
and comparison of two wrapped scalars matches comparison of their plain
payloads. -/
theorem claim_C5_ops_ignore_provenance : ∀ (v w : Scalar) (p1 p2 : Provenance), p1 ≠ p2 →
    Value.eqOp (wrap (Value.scalar v none) p1) (wrap (Value.scalar v none) p2) = true ∧
    Value.hashOp (wrap (Value.scalar v none) p1) = Value.hashOp (wrap (Value.scalar v none) p2) ∧
    Value.cmpOp (wrap (Value.scalar v none) p1) (wrap (Value.scalar w none) p2)
      = some (Scalar.cmp v w) :=
  fun v w p1 p2 _ => ⟨by simp [Value.eqOp, wrap, unwrap], rfl, rfl⟩

/-- Witness for C5 at the scalar 5 and two concrete distinct chains. -/
theorem claim_C5_ops_ignore_provenance_witness :
    exC5p1 ≠ exC5p2 ∧
    (Value.eqOp (wrap (Value.scalar (.int 5) none) exC5p1)
        (wrap (Value.scalar (.int 5) none) exC5p2) = true ∧
     Value.hashOp (wrap (Value.scalar (.int 5) none) exC5p1)
        = Value.hashOp (wrap (Value.scalar (.int 5) none) exC5p2) ∧
     Value.cmpOp (wrap (Value.scalar (.int 5) none) exC5p1)
        (wrap (Value.scalar (.str "z") none) exC5p2)
       = some (Scalar.cmp (.int 5) (.str "z"))) :=
  ⟨by decide, claim_C5_ops_ignore_provenance (.int 5) (.str "z") exC5p1 exC5p2 (by decide)⟩

/-- C8: construction of an attribution step from named fields succeeds only
when subcategory is the sole omitted field: any unrecognized field and any
missing required field is rejected, while the fully specified forms with and
without subcategory succeed. -/
theorem claim_C8_strict_construction : ∀ (fields : List (String × FieldValue)),
    ((∃ kv ∈ fields, ¬ allowedFieldNames.contains kv.1) →
        ProvenanceStep.ofFields fields = none) ∧
    ((∃ r ∈ requiredFieldNames, lookupField fields r = none) →
        ProvenanceStep.ofFields fields = none) ∧
    (∀ sp l c cat, ProvenanceStep.ofFields
        [("source_path", .str sp), ("line", .nat l), ("column", .nat c), ("category", .str cat)]
      = some (ProvenanceStep.mk sp l c cat none)) ∧
    (∀ sp l c cat sub, ProvenanceStep.ofFields
        [("source_path", .str sp), ("line", .nat l), ("column", .nat c),
         ("category", .str cat), ("subcategory", .str sub)]
      = some (ProvenanceStep.mk sp l c cat (some sub))) := by
  intro fields
  refine ⟨?_, ?_, ?_, ?_⟩
  · rintro ⟨kv, hmem, hkv⟩
    cases hall : fields.all (fun kv => allowedFieldNames.contains kv.1) with
    | true => exact absurd (List.all_eq_true.mp hall kv hmem) hkv
    | false =>
        unfold ProvenanceStep.ofFields
        rw [hall]
        rfl
  · rintro ⟨r, hr, hnone⟩
    unfold ProvenanceStep.ofFields
    split
    · split
      next sp l c cat h1 h2 h3 h4 =>
        exfalso
        simp only [requiredFieldNames, List.mem_cons, List.not_mem_nil, or_false] at hr
        rcases hr with rfl | rfl | rfl | rfl <;> simp_all
      next => rfl
    · rfl
  · intro sp l c cat
    rfl
  · intro sp l c cat sub
    rfl

/-- Witness for C8: a mapping with an unrecognized field is rejected, one
missing its source path is rejected, and the fully specified form without
subcategory succeeds. -/
theorem claim_C8_strict_construction_witness :
    ProvenanceStep.ofFields
        [("source_path", .str "a.yaml"), ("line", .nat 1), ("column", .nat 1),
         ("category", .str "c"), ("bogus", .str "x")] = none ∧
    ProvenanceStep.ofFields
        [("line", .nat 1), ("column", .nat 1), ("category", .str "c")] = none ∧
    ProvenanceStep.ofFields
        [("source_path", .str "a.yaml"), ("line", .nat 1), ("column", .nat 1),
         ("category", .str "c")]
      = some (ProvenanceStep.mk "a.yaml" 1 1 "c" none) :=
  ⟨(claim_C8_strict_construction
      [("source_path", .str "a.yaml"), ("line", .nat 1), ("column", .nat 1),
       ("category", .str "c"), ("bogus", .str "x")]).1
      ⟨("bogus", .str "x"), by decide, by decide⟩,
   (claim_C8_strict_construction
      [("line", .nat 1), ("column", .nat 1), ("category", .str "c")]).2.1
      ⟨"source_path", by decide, by decide⟩,
   (claim_C8_strict_construction
      [("source_path", .str "a.yaml"), ("line", .nat 1), ("column", .nat 1),
       ("category", .str "c")]).2.2.1 "a.yaml" 1 1 "c"⟩

/-- C10: the loader is constructible with no category at all — category and
subcategory default to absent — and on every readable single source such a
loader's load succeeds, returning the wrapped tree together with the
flattened provenance index. -/
theorem claim_C10_constructor_default_category :
    (({} : ProvenanceLoader).category = none ∧ ({} : ProvenanceLoader).subcategory = none) ∧
    ∀ (path : String) (pt : PosTree),
      ProvenanceLoader.load {} path (some pt)
        = .ok (loadTree path defaultCategory none pt,
               buildIndex "" (loadTree path defaultCategory none pt)) :=
  ⟨⟨rfl, rfl⟩, fun _ _ => rfl⟩

/-- C4: dumping with clean set suppresses every provenance comment and
strips every wrapper before serializing, for every dumper — in particular
one constructed with provenance comments on — and every tree: the emitted
document is the comment-free rendering of the unwrapped tree and carries no
comment at all. -/
theorem claim_C4_clean_unconditional : ∀ (d : ProvenanceDumper) (t : Value),
    d.dumps t true = Plain.toDump (unwrap t) ∧ (d.dumps t true).comments = [] :=
  fun d t =>
    ⟨dumpWalk_clean d.include_provenance_comments t, by
      show (dumpWalk d.include_provenance_comments true t).comments = []
      rw [dumpWalk_clean]
      exact comments_toDump _⟩

/-- C9: with provenance comments on and clean off, a wrapped scalar leaf is
emitted with the comment rendered from its latest attribution step, of the
form given by renderComment; in the spec's example the rendered comment is
exactly the expected text and contains both the position fragment and the
category. -/
theorem claim_C9_comment_rendering :
    (∀ (s : Scalar) (p : Provenance),
      (ProvenanceDumper.mk true).dumps (Value.scalar s (some p)) false
        = DumpNode.scalar s (p.latest.map renderComment)) ∧
    renderComment exC9step = "# from a.yaml:10 defaults" ∧
    (ProvenanceDumper.mk true).dumps
        (wrap (Value.scalar (.str "x") none) (Provenance.mk [exC9step])) false
      = DumpNode.scalar (.str "x") (some (renderComment exC9step)) ∧
    strContainsSub (renderComment exC9step) "a.yaml:10" = true ∧
    strContainsSub (renderComment exC9step) "defaults" = true :=
  ⟨fun s p => rfl, by decide, by decide, by decide, by decide⟩

/-- C2: in a layered merge of mappings, keys unique to either side are kept
as-is, keys present on both sides recurse, and a scalar overriding a scalar
takes the new value with the old chain merged with the new step; loading the
base a 1, b 2 and then the override b 3, c 4 yields a 1, b 3, c 4 in order,
with exactly the base step then the override step on b and a single step on
each of a and c. -/
theorem claim_C2_mapping_override : ∀ (oes nes : ValueMap) (k : String)
    (a b : Option Provenance),
    mergeValue (Value.map oes a) (Value.map nes b)
      = Value.map (mergedEntries oes nes) (mergedProv a b) ∧
    (lookupVM nes k = none → lookupVM (mergedEntries oes nes) k = lookupVM oes k) ∧
    (lookupVM oes k = none → lookupVM (mergedEntries oes nes) k = lookupVM nes k) ∧
    (∀ ov nv, lookupVM oes k = some ov → lookupVM nes k = some nv →
        lookupVM (mergedEntries oes nes) k = some (mergeValue ov nv)) ∧
    (∀ (os ns : Scalar) (p q : Provenance),
        mergeValue (Value.scalar os (some p)) (Value.scalar ns (some q))
          = Value.scalar ns (some (p.merge q))) ∧
    loadLayered "test" none none
        [("base.yaml", some exC2base), ("override.yaml", some exC2over)]
      = .ok (some exC2merged) ∧
    unwrap exC2merged
      = Plain.map (.cons "a" (.scalar (.int 1))
          (.cons "b" (.scalar (.int 3))
            (.cons "c" (.scalar (.int 4)) .nil))) ∧
    (exC2merged.atKey "b").bind provenance_of
      = some (Provenance.mk [ProvenanceStep.mk "base.yaml" 2 4 "test" none,
                             ProvenanceStep.mk "override.yaml" 1 4 "test" none]) ∧
    (exC2merged.atKey "a").bind provenance_of
      = some (Provenance.mk [ProvenanceStep.mk "base.yaml" 1 4 "test" none]) ∧
    (exC2merged.atKey "c").bind provenance_of
      = some (Provenance.mk [ProvenanceStep.mk "override.yaml" 2 4 "test" none]) := by
  intro oes nes k a b
  refine ⟨rfl, ?_, ?_, ?_, fun os ns p q => rfl, rfl, by decide, by decide, by decide,
    by decide⟩
  · intro h
    rw [lookupVM_mergedEntries, h]
    cases lookupVM oes k <;> rfl
  · intro h
    rw [lookupVM_mergedEntries, h]
  · intro ov nv h1 h2
    rw [lookupVM_mergedEntries, h1, h2]

/-- Witness for C2 at two one-key mappings sharing the key x. -/
theorem claim_C2_mapping_override_witness :
    lookupVM (mergedEntries (ValueMap.cons "x" (Value.scalar (.int 1) none) .nil)
                            (ValueMap.cons "x" (Value.scalar (.int 2) none) .nil)) "x"
      = some (mergeValue (Value.scalar (.int 1) none) (Value.scalar (.int 2) none)) :=
  (claim_C2_mapping_override (ValueMap.cons "x" (Value.scalar (.int 1) none) .nil)
      (ValueMap.cons "x" (Value.scalar (.int 2) none) .nil) "x" none none).2.2.2.1
    _ _ (by decide) (by decide)

/-- C3: a sequence overriding a sequence is wholesale replacement with no
positional merge — the merged node is exactly the overriding node — so a
base mapping holding list 1, 2, 3 overridden by list 9 ends with list equal
to the single item 9 and never 9, 2, 3. -/
theorem claim_C3_sequence_replacement : ∀ (xs : ValueSeq) (a : Option Provenance)
    (ys : ValueSeq) (b : Option Provenance) (oes nes : ValueMap) (k : String),
    mergeValue (Value.seq xs a) (Value.seq ys b) = Value.seq ys b ∧
    (lookupVM oes k = some (Value.seq xs a) → lookupVM nes k = some (Value.seq ys b) →
        lookupVM (mergedEntries oes nes) k = some (Value.seq ys b)) ∧
    (exC3merged.atKey "list").map unwrap
      = some (Plain.seq (.cons (.scalar (.int 9)) .nil)) ∧
    (exC3merged.atKey "list").map unwrap
      ≠ some (Plain.seq (.cons (.scalar (.int 9))
          (.cons (.scalar (.int 2)) (.cons (.scalar (.int 3)) .nil)))) := by
  intro xs a ys b oes nes k
  refine ⟨rfl, ?_, by decide, by decide⟩
  intro h1 h2
  rw [lookupVM_mergedEntries, h1, h2]
  rfl

/-- Witness for C3 at two one-key mappings binding list to concrete
sequences. -/
theorem claim_C3_sequence_replacement_witness :
    lookupVM (mergedEntries
        (ValueMap.cons "list" (Value.seq (.cons (Value.scalar (.int 1) none) .nil) none) .nil)
        (ValueMap.cons "list" (Value.seq (.cons (Value.scalar (.int 9) none) .nil) none) .nil))
      "list"
      = some (Value.seq (.cons (Value.scalar (.int 9) none) .nil) none) :=
  (claim_C3_sequence_replacement (.cons (Value.scalar (.int 1) none) .nil) none
      (.cons (Value.scalar (.int 9) none) .nil) none _ _ "list").2.1
    (by decide) (by decide)

/-- C1: loading a file produced by a clean dump yields a tree whose content
equals the unwrapped original under wrapped and plain equality — same keys,
same order, same values — while every re-loaded provenance chain is a fresh
single step anchored to the new file rather than the original chain. -/
theorem claim_C1_round_trip : ∀ (d : ProvenanceDumper) (L : ProvenanceLoader) (t : Value)
    (newPath : String) (pt : PosTree) (t2 : Value) (idx : List (String × Provenance)),
    PosTree.erase pt = DumpNode.erase (d.dumps t true) →
    L.load newPath (some pt) = .ok (t2, idx) →
    Value.eqOp t2 t = true ∧ unwrap t2 = unwrap t ∧
    ∀ pv ∈ t2.allProvs, ∃ l c,
      pv = Provenance.mk
        [ProvenanceStep.mk newPath l c (L.category.getD defaultCategory) L.subcategory] := by
  intro d L t newPath pt t2 idx hparse hload
  have ht2 : t2 = loadTree newPath (L.category.getD defaultCategory) L.subcategory pt := by
    simp only [ProvenanceLoader.load, Except.ok.injEq, Prod.mk.injEq] at hload
    exact hload.1.symm
  have hplain : unwrap t2 = unwrap t := by
    rw [ht2, unwrap_loadTree, hparse, ProvenanceDumper.dumps, dumpWalk_clean, erase_toDump]
  refine ⟨?_, hplain, ?_⟩
  · simp [Value.eqOp, hplain]
  · intro pv hpv
    rw [ht2] at hpv
    exact allProvs_loadTree _ _ _ _ _ hpv

/-- Witness for C1 at a concrete one-key tree, its clean dump's parse tree,
and the default loader. -/
theorem claim_C1_round_trip_witness :
    (PosTree.erase exC1pt = DumpNode.erase ((ProvenanceDumper.mk true).dumps exC1tree true) ∧
     ProvenanceLoader.load {} "out.yaml" (some exC1pt)
       = .ok (loadTree "out.yaml" defaultCategory none exC1pt,
              buildIndex "" (loadTree "out.yaml" defaultCategory none exC1pt))) ∧
    (Value.eqOp (loadTree "out.yaml" defaultCategory none exC1pt) exC1tree = true ∧
     unwrap (loadTree "out.yaml" defaultCategory none exC1pt) = unwrap exC1tree ∧
     ∀ pv ∈ (loadTree "out.yaml" defaultCategory none exC1pt).allProvs, ∃ l c,
       pv = Provenance.mk
         [ProvenanceStep.mk "out.yaml" l c
           ((({} : ProvenanceLoader).category).getD defaultCategory)
           ({} : ProvenanceLoader).subcategory]) :=
  ⟨⟨by decide, rfl⟩,
   claim_C1_round_trip (ProvenanceDumper.mk true) {} exC1tree "out.yaml" exC1pt
     (loadTree "out.yaml" defaultCategory none exC1pt)
     (buildIndex "" (loadTree "out.yaml" defaultCategory none exC1pt))
     (by decide) rfl⟩

end Herrkunft
